import Mathlib

/-!
Shallow embedding of `falco/propcustom.py` (Fourier-optics propagation
operators) and verification of its specification.

Electric fields are embedded as `Matrix (Fin m) (Fin n) ℂ` (numpy 2-D complex
arrays with exact complex arithmetic).  Python exceptions are embedded as
`Except PyErr`; the angular-spectrum propagator's non-fatal log warning is
embedded as a `Bool` component of its result.
-/

/-- Python exceptions that the module can raise. -/
inductive PyErr where
  | nameError (name : String) : PyErr
  | valueError (msg : String) : PyErr
deriving DecidableEq

/-- `_VALID_CENTERING = ['pixel', 'interpixel']` (module level, line 7). -/
def _VALID_CENTERING : List String := ["pixel", "interpixel"]

/-- `_CENTERING_ERR` (module level, line 8). -/
def _CENTERING_ERR : String :=
  "Invalid centering specification. Options: ['pixel', 'interpixel']"

/-- The module-level bindings of `falco/propcustom.py` whose value is a list of
strings.  The only such binding is `_VALID_CENTERING`; in particular the
lowercase name `_valid_centering`, which `propcustom_2FT` evaluates, is bound
nowhere in the module (nor in builtins), so looking it up yields `none`
(Python: `NameError`). -/
def moduleStrListBindings (name : String) : Option (List String) :=
  if name = "_VALID_CENTERING" then some _VALID_CENTERING else none

/-- `E_in[::-1, ::-1]`: reverse a 2-D array along both axes. -/
def reverse2 (E : Matrix (Fin m) (Fin n) ℂ) : Matrix (Fin m) (Fin n) ℂ :=
  Matrix.of fun i j => E i.rev j.rev

/-- Index map of `np.roll(·, 1)` along an axis of length `m`:
entry `i` of the rolled array is entry `(i - 1) % m` of the original. -/
def rollOne (i : Fin m) : Fin m :=
  ⟨(i + (m - 1)) % m, Nat.mod_lt _ i.pos⟩

/-- `np.roll(E, (1, 1), axis=(0, 1))`. -/
def roll2 (E : Matrix (Fin m) (Fin n) ℂ) : Matrix (Fin m) (Fin n) ℂ :=
  Matrix.of fun i j => E (rollOne i) (rollOne j)

/-- The arithmetic body of `propcustom_2FT` (lines 37-42): reverse and scale
the input by `(1 / 1j) ** 2`; if pixel-centered, the branch overwrites that
value with `np.roll(E_in, (1, 1), axis=(0, 1))` applied to the *input*. -/
noncomputable def twoFT_body (E_in : Matrix (Fin m) (Fin n) ℂ) (centering : String) :
    Matrix (Fin m) (Fin n) ℂ :=
  let E_out := ((1 / Complex.I) ^ 2) • reverse2 E_in
  if centering = "pixel" then roll2 E_in else E_out

/-- `propcustom_2FT(E_in, centering)` (lines 11-42).  Its first statement,
`if centering not in _valid_centering:`, evaluates the name
`_valid_centering`, which is unbound (the module defines `_VALID_CENTERING`),
so the lookup fails with a `NameError` before the membership test runs. -/
noncomputable def propcustom_2FT (E_in : Matrix (Fin m) (Fin n) ℂ)
    (centering : String) : Except PyErr (Matrix (Fin m) (Fin n) ℂ) :=
  match moduleStrListBindings "_valid_centering" with
  | none => Except.error (PyErr.nameError "_valid_centering")
  | some valid =>
      if centering ∉ valid then Except.error (PyErr.valueError _CENTERING_ERR)
      else Except.ok (twoFT_body E_in centering)

/-- Modelled from the spec: `falco.utils.create_axis` is part of this
repository but not under `src/`.  Spec §6: "returns evenly spaced coordinates
centered at zero; for `pixel` centering the zero coordinate coincides with the
sample at index `size // 2`; for `interpixel` centering no sample equals
exactly zero (symmetric offset by half a pitch)". -/
noncomputable def create_axis (size : ℕ) (pitch : ℝ) (centering : String)
    (j : ℕ) : ℝ :=
  ((j : ℝ) - (size / 2 : ℕ)) * pitch +
    (if centering = "interpixel" then pitch / 2 else 0)

/-- Modelled from the spec: `falco.utils.radial_grid` is part of this
repository but not under `src/`.  Spec §6: "returns the Euclidean-distance
grid formed by broadcasting `axis` against itself in both dimensions". -/
noncomputable def radial_grid (axis : ℕ → ℝ) (i j : ℕ) : ℝ :=
  Real.sqrt (axis i ^ 2 + axis j ^ 2)

/-- The arithmetic body of `propcustom_mft_FtoP` (lines 124-142), as the
source writes it.  Note line 129: the `eta` (vertical, row) axis of the focal
plane is built with pitch `dxi`, not `deta`. -/
noncomputable def mftFtoP_core (E_foc : Matrix (Fin Neta) (Fin Nxi) ℂ)
    (fl lam dxi deta dx : ℝ) (N : ℕ) (centering : String) :
    Matrix (Fin N) (Fin N) ℂ :=
  let dy := dx
  let xi : Fin Nxi → ℝ := fun p => create_axis Nxi dxi centering p
  let eta : Fin Neta → ℝ := fun q => create_axis Neta dxi centering q
  let x : Fin N → ℝ := fun a => create_axis N dx centering a
  let y : Fin N → ℝ := x
  let pre : Matrix (Fin N) (Fin Neta) ℂ :=
    Matrix.of fun a b => Complex.exp (-2 * Real.pi * Complex.I * (y a * eta b) / (lam * fl))
  let post : Matrix (Fin Nxi) (Fin N) ℂ :=
    Matrix.of fun p q => Complex.exp (-2 * Real.pi * Complex.I * (xi p * x q) / (lam * fl))
  let scaling : ℂ := (Real.sqrt (dx * dy * dxi * deta) : ℂ) / (Complex.I * lam * fl)
  scaling • (pre * E_foc * post)

/-- `propcustom_mft_FtoP(E_foc, fl, lambda_, dxi, deta, dx, N, centering)`
(lines 90-142): validate the centering, then return the matrix-DFT sandwich. -/
noncomputable def propcustom_mft_FtoP (E_foc : Matrix (Fin Neta) (Fin Nxi) ℂ)
    (fl lam dxi deta dx : ℝ) (N : ℕ) (centering : String) :
    Except PyErr (Matrix (Fin N) (Fin N) ℂ) :=
  if centering ∉ _VALID_CENTERING then Except.error (PyErr.valueError _CENTERING_ERR)
  else Except.ok (mftFtoP_core E_foc fl lam dxi deta dx N centering)

/-- The claimed behaviour of the Focal→Pupil operator, following the spec's
words: identical to `mftFtoP_core` except that the focal-plane row (`eta`)
axis uses the provided per-axis pitch `deta`. -/
noncomputable def mftFtoP_spec (E_foc : Matrix (Fin Neta) (Fin Nxi) ℂ)
    (fl lam dxi deta dx : ℝ) (N : ℕ) (centering : String) :
    Matrix (Fin N) (Fin N) ℂ :=
  let dy := dx
  let xi : Fin Nxi → ℝ := fun p => create_axis Nxi dxi centering p
  let eta : Fin Neta → ℝ := fun q => create_axis Neta deta centering q
  let x : Fin N → ℝ := fun a => create_axis N dx centering a
  let y : Fin N → ℝ := x
  let pre : Matrix (Fin N) (Fin Neta) ℂ :=
    Matrix.of fun a b => Complex.exp (-2 * Real.pi * Complex.I * (y a * eta b) / (lam * fl))
  let post : Matrix (Fin Nxi) (Fin N) ℂ :=
    Matrix.of fun p q => Complex.exp (-2 * Real.pi * Complex.I * (xi p * x q) / (lam * fl))
  let scaling : ℂ := (Real.sqrt (dx * dy * dxi * deta) : ℂ) / (Complex.I * lam * fl)
  scaling • (pre * E_foc * post)

/-- The arithmetic body of `propcustom_mft_PtoF` (lines 187-202).  The pupil
axes have length `N` (the input's column count); indexing the `pre` matrix by
the row count `M` agrees with the source once the square check `M == N` has
passed. -/
noncomputable def mftPtoF_core (E_pup : Matrix (Fin M) (Fin N) ℂ)
    (fl lam dx dxi : ℝ) (Nxi : ℕ) (deta : ℝ) (Neta : ℕ) (centering : String) :
    Matrix (Fin Neta) (Fin Nxi) ℂ :=
  let dy := dx
  let x : ℕ → ℝ := create_axis N dx centering
  let xi : ℕ → ℝ := create_axis Nxi dxi centering
  let eta : ℕ → ℝ := create_axis Neta deta centering
  let pre : Matrix (Fin Neta) (Fin M) ℂ :=
    Matrix.of fun e a => Complex.exp (-2 * Real.pi * Complex.I * (eta e * x a) / (lam * fl))
  let post : Matrix (Fin N) (Fin Nxi) ℂ :=
    Matrix.of fun a p => Complex.exp (-2 * Real.pi * Complex.I * (x a * xi p) / (lam * fl))
  let scaling : ℂ := (Real.sqrt (dx * dy * dxi * deta) : ℂ) / (Complex.I * lam * fl)
  scaling • (pre * E_pup * post)

/-- `propcustom_mft_PtoF(E_pup, fl, lambda_, dx, dxi, Nxi, deta, Neta,
centering)` (lines 145-202): validate the centering, then the square shape,
then return the matrix-DFT sandwich. -/
noncomputable def propcustom_mft_PtoF (E_pup : Matrix (Fin M) (Fin N) ℂ)
    (fl lam dx dxi : ℝ) (Nxi : ℕ) (deta : ℝ) (Neta : ℕ) (centering : String) :
    Except PyErr (Matrix (Fin Neta) (Fin Nxi) ℂ) :=
  if centering ∉ _VALID_CENTERING then Except.error (PyErr.valueError _CENTERING_ERR)
  else if M ≠ N then Except.error (PyErr.valueError "Input array is not square")
  else Except.ok (mftPtoF_core E_pup fl lam dx dxi Nxi deta Neta centering)

/-- The unit-modulus DFT phase `exp(2πi·t/n)`. -/
noncomputable def dftKernel (n : ℕ) (t : ℤ) : ℂ :=
  Complex.exp (2 * Real.pi * Complex.I * t / n)

/-- `np.fft.fftn` on a 2-D array: the forward DFT over both axes, with
numpy's sign convention `exp(-2πi(k·p/M + l·q/N))`. -/
noncomputable def fftn (A : Matrix (Fin M) (Fin N) ℂ) : Matrix (Fin M) (Fin N) ℂ :=
  Matrix.of fun k l =>
    ∑ p, ∑ q, A p q * dftKernel M (-((k : ℤ) * p)) * dftKernel N (-((l : ℤ) * q))

/-- `np.fft.ifftn` on a 2-D array: the inverse DFT over both axes, normalized
by `1 / (M·N)`. -/
noncomputable def ifftn (A : Matrix (Fin M) (Fin N) ℂ) : Matrix (Fin M) (Fin N) ℂ :=
  Matrix.of fun a b =>
    (∑ k, ∑ l, A k l * dftKernel M ((a : ℤ) * k) * dftKernel N ((b : ℤ) * l)) /
      ((M : ℂ) * (N : ℂ))

/-- Index map of `np.fft.fftshift` along an axis of length `n`
(`np.roll(·, n // 2)`): entry `i` of the result is entry `(i - n//2) % n`
of the original. -/
def fftshiftIdx (n : ℕ) (i : Fin n) : Fin n :=
  ⟨(i + (n - n / 2)) % n, Nat.mod_lt _ i.pos⟩

/-- Index map of `np.fft.ifftshift` along an axis of length `n`: entry `i`
of the result is entry `(i + n//2) % n` of the original. -/
def ifftshiftIdx (n : ℕ) (i : Fin n) : Fin n :=
  ⟨(i + n / 2) % n, Nat.mod_lt _ i.pos⟩

/-- `np.fft.fftshift` on a 2-D array (both axes shifted). -/
def fftshift2 (A : Matrix (Fin M) (Fin N) ℂ) : Matrix (Fin M) (Fin N) ℂ :=
  Matrix.of fun i j => A (fftshiftIdx M i) (fftshiftIdx N j)

/-- `np.fft.ifftshift` on a 2-D array (both axes shifted). -/
def ifftshift2 (A : Matrix (Fin M) (Fin N) ℂ) : Matrix (Fin M) (Fin N) ℂ :=
  Matrix.of fun i j => A (ifftshiftIdx M i) (ifftshiftIdx N j)

/-- `np.arange(-N // 2, N // 2)[k] / full_width` (line 81): the spatial
frequency axis.  Python's `-N // 2` is `(-N) // 2 = -((N + 1) // 2)`, so the
`k`-th entry of the arange is `k - (N + 1) // 2`. -/
noncomputable def ptp_fx (N : ℕ) (full_width : ℝ) (k : ℕ) : ℝ :=
  ((k : ℝ) - ((N + 1) / 2 : ℕ)) / full_width

/-- The (uncentered) angular-spectrum transfer kernel of `propcustom_PTP`
(line 84): `np.exp(-1j * np.pi * lambda_ * dz * rho ** 2)` with
`rho = utils.radial_grid(fx)`.  The frequency axis has the input's column
count `N` on both index positions; when the array is square (the only case
that reaches this code) this is precisely the source's `N × N` kernel. -/
noncomputable def ptp_kernel (M N : ℕ) (full_width lam dz : ℝ) :
    Matrix (Fin M) (Fin N) ℂ :=
  Matrix.of fun i j =>
    Complex.exp (-Complex.I * Real.pi * lam * dz *
      (radial_grid (ptp_fx N full_width) i j : ℝ) ^ 2)

/-- The returned field of `propcustom_PTP` (lines 81-87). -/
noncomputable def ptp_field (E_in : Matrix (Fin M) (Fin N) ℂ)
    (full_width lam dz : ℝ) : Matrix (Fin M) (Fin N) ℂ :=
  let kernel := fftshift2 (ptp_kernel M N full_width lam dz)
  let intermediate := fftn (fftshift2 E_in)
  ifftshift2 (ifftn (Matrix.of fun i j => kernel i j * intermediate i j))

/-- `propcustom_PTP(E_in, full_width, lambda_, dz)` (lines 45-87).  The
non-fatal undersampling log warning (lines 73-79) is embedded as the `Bool`
component of the result: `true` exactly when `N < N_critical`. -/
noncomputable def propcustom_PTP (E_in : Matrix (Fin M) (Fin N) ℂ)
    (full_width lam dz : ℝ) :
    Except PyErr (Bool × Matrix (Fin M) (Fin N) ℂ) :=
  let dx := full_width / N
  let N_critical : ℤ := ⌊lam * |dz| / dx ^ 2⌋
  if M ≠ N then Except.error (PyErr.valueError "Input array is not square")
  else
    Except.ok
      (decide ((N : ℤ) < N_critical), ptp_field E_in full_width lam dz)

/-- A concrete 2×2 test field. -/
noncomputable def Etest : Matrix (Fin 2) (Fin 2) ℂ := !![1, 2; 3, 4]

lemma reverse2_reverse2 (E : Matrix (Fin m) (Fin n) ℂ) :
    reverse2 (reverse2 E) = E := by
  ext i j
  simp [reverse2, Fin.rev_rev]

lemma reverse2_smul (c : ℂ) (E : Matrix (Fin m) (Fin n) ℂ) :
    reverse2 (c • E) = c • reverse2 E := by
  ext i j
  simp [reverse2]

/-- C1: the claim says an invalid centering raises `ValueError` before any
computation and a valid centering raises nothing.  In fact every call to
`propcustom_2FT` — with an invalid *or* a valid centering — fails with
`NameError`, because its check reads the unbound name `_valid_centering`
(the module binds only `_VALID_CENTERING`). -/
theorem twoFT_centering_check_nameError :
    propcustom_2FT Etest "banana"
        = Except.error (PyErr.nameError "_valid_centering") ∧
    propcustom_2FT Etest "pixel"
        = Except.error (PyErr.nameError "_valid_centering") ∧
    propcustom_2FT Etest "interpixel"
        = Except.error (PyErr.nameError "_valid_centering") :=
  ⟨rfl, rfl, rfl⟩

/-- C4: the claim says two `interpixel` applications of the Two-FT operator
return the field exactly.  The code never gets there: the very first call
raises `NameError` (unbound `_valid_centering`).  The claim is right about
the intended arithmetic: the post-check body composed with itself under
`interpixel` is the identity, since `(1/i)^2 • reversal` is an involution. -/
theorem twoFT_interpixel_roundtrip_code_bug :
    propcustom_2FT Etest "interpixel"
        = Except.error (PyErr.nameError "_valid_centering") ∧
    ∀ (m n : ℕ) (E : Matrix (Fin m) (Fin n) ℂ),
      twoFT_body (twoFT_body E "interpixel") "interpixel" = E := by
  refine ⟨rfl, ?_⟩
  intro m n E
  unfold twoFT_body
  rw [if_neg (by decide), if_neg (by decide), reverse2_smul, smul_smul,
    reverse2_reverse2, ← pow_add]
  have h4 : (1 / Complex.I) ^ (2 + 2) = 1 := by
    rw [show 2 + 2 = 4 from rfl, div_pow, one_pow, Complex.I_pow_four,
      one_div_one]
  rw [h4, one_smul]

/-- C5: a non-square input makes both the Angular-Spectrum propagator and the
Pupil→Focal matrix-DFT operator (under a valid centering) fail with the
shape-mismatch `ValueError` and produce no result. -/
theorem shape_mismatch_rejected
    (M N : ℕ) (h : M ≠ N) (E : Matrix (Fin M) (Fin N) ℂ)
    (full_width lam dz fl dx dxi : ℝ) (Nxi : ℕ) (deta : ℝ) (Neta : ℕ)
    (c : String) (hc : c ∈ _VALID_CENTERING) :
    propcustom_PTP E full_width lam dz
        = Except.error (PyErr.valueError "Input array is not square") ∧
    propcustom_mft_PtoF E fl lam dx dxi Nxi deta Neta c
        = Except.error (PyErr.valueError "Input array is not square") := by
  constructor
  · unfold propcustom_PTP
    rw [if_pos h]
  · unfold propcustom_mft_PtoF
    rw [if_neg (not_not_intro hc), if_pos h]

theorem shape_mismatch_rejected_witness :
    propcustom_PTP (!![1, 0] : Matrix (Fin 1) (Fin 2) ℂ) 1 1 1
        = Except.error (PyErr.valueError "Input array is not square") ∧
    propcustom_mft_PtoF (!![1, 0] : Matrix (Fin 1) (Fin 2) ℂ) 1 1 1 1 1 1 1
        "pixel"
        = Except.error (PyErr.valueError "Input array is not square") :=
  shape_mismatch_rejected 1 2 (by decide) !![1, 0] 1 1 1 1 1 1 1 1 1 "pixel"
    (by decide)

/-- C9: for a square pupil field and a valid centering, the Pupil→Focal
matrix-DFT operator succeeds and its result has `Neta` rows (vertical/η axis)
and `Nxi` columns (horizontal/ξ axis). -/
theorem mft_PtoF_output_shape
    (n : ℕ) (E : Matrix (Fin n) (Fin n) ℂ) (fl lam dx dxi : ℝ) (Nxi : ℕ)
    (deta : ℝ) (Neta : ℕ) (c : String) (hc : c ∈ _VALID_CENTERING) :
    ∃ R : Matrix (Fin Neta) (Fin Nxi) ℂ,
      propcustom_mft_PtoF E fl lam dx dxi Nxi deta Neta c = Except.ok R := by
  refine ⟨mftPtoF_core E fl lam dx dxi Nxi deta Neta c, ?_⟩
  unfold propcustom_mft_PtoF
  rw [if_neg (not_not_intro hc), if_neg (by simp)]

theorem mft_PtoF_output_shape_witness :
    ∃ R : Matrix (Fin 3) (Fin 5) ℂ,
      propcustom_mft_PtoF Etest 1 1 1 1 5 1 3 "interpixel" = Except.ok R :=
  mft_PtoF_output_shape 2 Etest 1 1 1 1 5 1 3 "interpixel" (by decide)

lemma sandwich_linear {l m n o : Type*} [Fintype m] [Fintype n]
    (P : Matrix l m ℂ) (Q : Matrix n o ℂ) (s a b : ℂ)
    (E1 E2 : Matrix m n ℂ) :
    s • (P * (a • E1 + b • E2) * Q)
      = a • (s • (P * E1 * Q)) + b • (s • (P * E2 * Q)) := by
  rw [Matrix.mul_add, Matrix.add_mul, Matrix.mul_smul, Matrix.mul_smul,
    Matrix.smul_mul, Matrix.smul_mul, smul_add, smul_smul, smul_smul,
    smul_smul, smul_smul, mul_comm s a, mul_comm s b]

lemma mftFtoP_core_linear (E1 E2 : Matrix (Fin Neta) (Fin Nxi) ℂ)
    (fl lam dxi deta dx : ℝ) (N : ℕ) (c : String) (a b : ℂ) :
    mftFtoP_core (a • E1 + b • E2) fl lam dxi deta dx N c
      = a • mftFtoP_core E1 fl lam dxi deta dx N c
          + b • mftFtoP_core E2 fl lam dxi deta dx N c := by
  unfold mftFtoP_core
  exact sandwich_linear _ _ _ a b E1 E2

lemma mftPtoF_core_linear (E1 E2 : Matrix (Fin M) (Fin N) ℂ)
    (fl lam dx dxi : ℝ) (Nxi : ℕ) (deta : ℝ) (Neta : ℕ) (c : String)
    (a b : ℂ) :
    mftPtoF_core (a • E1 + b • E2) fl lam dx dxi Nxi deta Neta c
      = a • mftPtoF_core E1 fl lam dx dxi Nxi deta Neta c
          + b • mftPtoF_core E2 fl lam dx dxi Nxi deta Neta c := by
  unfold mftPtoF_core
  exact sandwich_linear _ _ _ a b E1 E2

/-- C8: with the geometry parameters and a valid centering fixed, both
matrix-DFT operators are linear in the field argument (exactly, over exact
complex arithmetic). -/
theorem mft_linearity
    (fl lam dxi deta dx : ℝ) (N : ℕ) (c : String) (hc : c ∈ _VALID_CENTERING)
    (a b : ℂ) :
    (∀ (Neta Nxi : ℕ) (E1 E2 : Matrix (Fin Neta) (Fin Nxi) ℂ)
        (R1 R2 : Matrix (Fin N) (Fin N) ℂ),
        propcustom_mft_FtoP E1 fl lam dxi deta dx N c = Except.ok R1 →
        propcustom_mft_FtoP E2 fl lam dxi deta dx N c = Except.ok R2 →
        propcustom_mft_FtoP (a • E1 + b • E2) fl lam dxi deta dx N c
          = Except.ok (a • R1 + b • R2)) ∧
    (∀ (n Nxi Neta : ℕ) (E1 E2 : Matrix (Fin n) (Fin n) ℂ)
        (R1 R2 : Matrix (Fin Neta) (Fin Nxi) ℂ),
        propcustom_mft_PtoF E1 fl lam dx dxi Nxi deta Neta c = Except.ok R1 →
        propcustom_mft_PtoF E2 fl lam dx dxi Nxi deta Neta c = Except.ok R2 →
        propcustom_mft_PtoF (a • E1 + b • E2) fl lam dx dxi Nxi deta Neta c
          = Except.ok (a • R1 + b • R2)) := by
  constructor
  · intro Neta Nxi E1 E2 R1 R2 h1 h2
    unfold propcustom_mft_FtoP at h1 h2 ⊢
    rw [if_neg (not_not_intro hc)] at h1 h2 ⊢
    obtain ⟨rfl⟩ : mftFtoP_core E1 fl lam dxi deta dx N c = R1 :=
      Except.ok.inj h1
    obtain ⟨rfl⟩ : mftFtoP_core E2 fl lam dxi deta dx N c = R2 :=
      Except.ok.inj h2
    rw [mftFtoP_core_linear]
  · intro n Nxi Neta E1 E2 R1 R2 h1 h2
    unfold propcustom_mft_PtoF at h1 h2 ⊢
    rw [if_neg (not_not_intro hc), if_neg (by simp)] at h1 h2 ⊢
    obtain ⟨rfl⟩ : mftPtoF_core E1 fl lam dx dxi Nxi deta Neta c = R1 :=
      Except.ok.inj h1
    obtain ⟨rfl⟩ : mftPtoF_core E2 fl lam dx dxi Nxi deta Neta c = R2 :=
      Except.ok.inj h2
    rw [mftPtoF_core_linear]

theorem mft_linearity_witness :
    propcustom_mft_FtoP ((2 : ℂ) • Etest + (3 : ℂ) • Etest) 1 1 1 1 1 2 "pixel"
      = Except.ok ((2 : ℂ) • mftFtoP_core Etest 1 1 1 1 1 2 "pixel"
          + (3 : ℂ) • mftFtoP_core Etest 1 1 1 1 1 2 "pixel") ∧
    propcustom_mft_PtoF ((2 : ℂ) • Etest + (3 : ℂ) • Etest) 1 1 1 1 5 1 3
        "pixel"
      = Except.ok ((2 : ℂ) • mftPtoF_core Etest 1 1 1 1 5 1 3 "pixel"
          + (3 : ℂ) • mftPtoF_core Etest 1 1 1 1 5 1 3 "pixel") := by
  constructor
  · refine (mft_linearity 1 1 1 1 1 2 "pixel" (by decide) 2 3).1 2 2
      Etest Etest _ _ ?_ ?_ <;>
    · unfold propcustom_mft_FtoP
      rw [if_neg (by decide)]
  · refine (mft_linearity 1 1 1 1 1 2 "pixel" (by decide) 2 3).2 2 5 3
      Etest Etest _ _ ?_ ?_ <;>
    · unfold propcustom_mft_PtoF
      rw [if_neg (by decide), if_neg (by decide)]

/-- C6: on a square `N×N` input the Angular-Spectrum propagator always
completes and returns a field, and its non-fatal sampling-inadequacy warning
fires exactly when `N < ⌊wavelength · |dz| / pitch²⌋` with
`pitch = full_width / N`. -/
theorem ptp_sampling_warning_iff
    (N : ℕ) (E : Matrix (Fin N) (Fin N) ℂ) (full_width lam dz : ℝ) :
    ∃ (w : Bool) (F : Matrix (Fin N) (Fin N) ℂ),
      propcustom_PTP E full_width lam dz = Except.ok (w, F) ∧
      (w = true ↔ (N : ℤ) < ⌊lam * |dz| / (full_width / (N : ℝ)) ^ 2⌋) := by
  refine ⟨decide ((N : ℤ) < ⌊lam * |dz| / (full_width / (N : ℝ)) ^ 2⌋),
    ptp_field E full_width lam dz, ?_, decide_eq_true_iff⟩
  simp only [propcustom_PTP]
  rw [if_neg (by simp)]

/-- C2: the claim says the `pixel`-centered Two-FT output is
`np.roll((1/1j)**2 * E[::-1, ::-1], (1, 1), axis=(0, 1))`.  The code first
fails with `NameError` (unbound `_valid_centering`); and even its arithmetic
body disagrees with the claim: the pixel branch overwrites the
reversed-and-scaled value with `np.roll(E_in, (1, 1))` applied to the raw
input, which differs from the claimed value already on `!![1, 2; 3, 4]`. -/
theorem twoFT_pixel_branch_code_bug :
    propcustom_2FT Etest "pixel"
        = Except.error (PyErr.nameError "_valid_centering") ∧
    twoFT_body Etest "pixel"
        ≠ roll2 (((1 / Complex.I) ^ 2) • reverse2 Etest) := by
  refine ⟨rfl, ?_⟩
  intro h
  have h00 : twoFT_body Etest "pixel" 0 0
      = roll2 (((1 / Complex.I) ^ 2) • reverse2 Etest) 0 0 := by rw [h]
  simp [twoFT_body, roll2, rollOne, reverse2, Etest, Fin.rev] at h00
  norm_num [Complex.I_sq, div_pow] at h00

lemma dftKernel_zero (n : ℕ) : dftKernel n 0 = 1 := by
  simp [dftKernel]

lemma dftKernel_mul (n : ℕ) (s t : ℤ) :
    dftKernel n s * dftKernel n t = dftKernel n (s + t) := by
  unfold dftKernel
  rw [← Complex.exp_add]
  congr 1
  push_cast
  ring

lemma dftKernel_nat_mul (n : ℕ) (k : ℕ) (t : ℤ) :
    dftKernel n ((k : ℤ) * t) = dftKernel n t ^ k := by
  unfold dftKernel
  rw [← Complex.exp_nat_mul]
  congr 1
  push_cast
  ring

lemma dftKernel_pow_self {n : ℕ} (hn : 0 < n) (t : ℤ) :
    dftKernel n t ^ n = 1 := by
  unfold dftKernel
  rw [← Complex.exp_nat_mul]
  have hn' : (n : ℂ) ≠ 0 := Nat.cast_ne_zero.2 hn.ne'
  have harg : (n : ℂ) * (2 * Real.pi * Complex.I * t / n)
      = t * (2 * Real.pi * Complex.I) := by
    field_simp
    ring
  rw [harg, Complex.exp_int_mul_two_pi_mul_I]

lemma dftKernel_eq_one_iff {n : ℕ} (hn : 0 < n) (t : ℤ) :
    dftKernel n t = 1 ↔ (n : ℤ) ∣ t := by
  have hn' : (n : ℂ) ≠ 0 := Nat.cast_ne_zero.2 hn.ne'
  have h2πI : (2 : ℂ) * Real.pi * Complex.I ≠ 0 := by
    simp [Real.pi_ne_zero, Complex.I_ne_zero]
  unfold dftKernel
  rw [Complex.exp_eq_one_iff]
  constructor
  · rintro ⟨k, hk⟩
    refine ⟨k, ?_⟩
    have h1 : (2 : ℂ) * Real.pi * Complex.I * t
        = 2 * Real.pi * Complex.I * (k * n) := by
      have := congrArg (· * (n : ℂ)) hk
      simp only [div_mul_cancel₀ _ hn'] at this
      rw [this]
      ring
    have h2 : (t : ℂ) = ((k * n : ℤ) : ℂ) := by
      push_cast
      exact mul_left_cancel₀ h2πI h1
    rw [mul_comm]
    exact_mod_cast h2
  · rintro ⟨k, rfl⟩
    refine ⟨k, ?_⟩
    field_simp
    ring

lemma sum_dftKernel {n : ℕ} (a p : Fin n) :
    ∑ k : Fin n, dftKernel n ((k : ℤ) * ((a : ℤ) - (p : ℤ)))
      = if a = p then (n : ℂ) else 0 := by
  have hn : 0 < n := a.pos
  by_cases h : a = p
  · subst h
    simp [dftKernel_zero, Finset.card_univ]
  · rw [if_neg h]
    have ht : ¬ (n : ℤ) ∣ ((a : ℤ) - (p : ℤ)) := by
      intro hd
      have habs : |(a : ℤ) - (p : ℤ)| < n := by
        have ha := a.isLt
        have hp := p.isLt
        refine abs_lt.2 ⟨?_, ?_⟩ <;> omega
      have := Int.eq_zero_of_abs_lt_dvd hd habs
      exact h (Fin.ext (by omega))
    have hx : dftKernel n ((a : ℤ) - (p : ℤ)) ≠ 1 :=
      fun h1 => ht ((dftKernel_eq_one_iff hn _).1 h1)
    calc ∑ k : Fin n, dftKernel n ((k : ℤ) * ((a : ℤ) - (p : ℤ)))
        = ∑ k : Fin n, dftKernel n ((a : ℤ) - (p : ℤ)) ^ (k : ℕ) :=
          Finset.sum_congr rfl fun k _ => dftKernel_nat_mul n k _
      _ = ∑ i ∈ Finset.range n, dftKernel n ((a : ℤ) - (p : ℤ)) ^ i :=
          Fin.sum_univ_eq_sum_range _ n
      _ = (dftKernel n ((a : ℤ) - (p : ℤ)) ^ n - 1) /
            (dftKernel n ((a : ℤ) - (p : ℤ)) - 1) := geom_sum_eq hx n
      _ = 0 := by rw [dftKernel_pow_self hn]; simp

lemma sum_swap4 {α β : Type*} [Fintype α] [Fintype β] (F : α → β → α → β → ℂ) :
    ∑ k : α, ∑ l : β, ∑ p : α, ∑ q : β, F k l p q
      = ∑ p : α, ∑ q : β, ∑ k : α, ∑ l : β, F k l p q :=
  calc ∑ k : α, ∑ l : β, ∑ p : α, ∑ q : β, F k l p q
      = ∑ k : α, ∑ p : α, ∑ l : β, ∑ q : β, F k l p q :=
        Finset.sum_congr rfl fun _ _ => Finset.sum_comm
    _ = ∑ p : α, ∑ k : α, ∑ l : β, ∑ q : β, F k l p q := Finset.sum_comm
    _ = ∑ p : α, ∑ k : α, ∑ q : β, ∑ l : β, F k l p q :=
        Finset.sum_congr rfl fun _ _ =>
          Finset.sum_congr rfl fun _ _ => Finset.sum_comm
    _ = ∑ p : α, ∑ q : β, ∑ k : α, ∑ l : β, F k l p q :=
        Finset.sum_congr rfl fun _ _ => Finset.sum_comm

lemma sum_factor_out {α β : Type*} [Fintype α] [Fintype β]
    (c : ℂ) (g : α → ℂ) (h : β → ℂ) :
    ∑ k : α, ∑ l : β, c * g k * h l
      = c * (∑ k : α, g k) * (∑ l : β, h l) := by
  rw [← Finset.sum_mul_sum, ← Finset.mul_sum]

lemma ifftn_fftn (A : Matrix (Fin M) (Fin N) ℂ) : ifftn (fftn A) = A := by
  ext a b
  have hM : (0 : ℕ) < M := a.pos
  have hN : (0 : ℕ) < N := b.pos
  have hM' : (M : ℂ) ≠ 0 := Nat.cast_ne_zero.2 hM.ne'
  have hN' : (N : ℂ) ≠ 0 := Nat.cast_ne_zero.2 hN.ne'
  simp only [ifftn, fftn, Matrix.of_apply]
  have key : ∀ (k : Fin M) (l : Fin N),
      (∑ p, ∑ q, A p q * dftKernel M (-((k : ℤ) * p))
          * dftKernel N (-((l : ℤ) * q)))
        * dftKernel M ((a : ℤ) * k) * dftKernel N ((b : ℤ) * l)
      = ∑ p, ∑ q, A p q * dftKernel M ((k : ℤ) * ((a : ℤ) - (p : ℤ)))
          * dftKernel N ((l : ℤ) * ((b : ℤ) - (q : ℤ))) := by
    intro k l
    rw [Finset.sum_mul, Finset.sum_mul]
    refine Finset.sum_congr rfl fun p _ => ?_
    rw [Finset.sum_mul, Finset.sum_mul]
    refine Finset.sum_congr rfl fun q _ => ?_
    calc A p q * dftKernel M (-((k : ℤ) * p)) * dftKernel N (-((l : ℤ) * q))
          * dftKernel M ((a : ℤ) * k) * dftKernel N ((b : ℤ) * l)
        = A p q * (dftKernel M (-((k : ℤ) * p)) * dftKernel M ((a : ℤ) * k))
            * (dftKernel N (-((l : ℤ) * q)) * dftKernel N ((b : ℤ) * l)) := by
          ring
      _ = A p q * dftKernel M (-((k : ℤ) * p) + (a : ℤ) * k)
            * dftKernel N (-((l : ℤ) * q) + (b : ℤ) * l) := by
          rw [dftKernel_mul, dftKernel_mul]
      _ = A p q * dftKernel M ((k : ℤ) * ((a : ℤ) - (p : ℤ)))
            * dftKernel N ((l : ℤ) * ((b : ℤ) - (q : ℤ))) := by
          rw [show -((k : ℤ) * p) + (a : ℤ) * k = (k : ℤ) * ((a : ℤ) - p)
              from by ring,
            show -((l : ℤ) * q) + (b : ℤ) * l = (l : ℤ) * ((b : ℤ) - q)
              from by ring]
  calc (∑ k : Fin M, ∑ l : Fin N,
          (∑ p, ∑ q, A p q * dftKernel M (-((k : ℤ) * p))
            * dftKernel N (-((l : ℤ) * q)))
          * dftKernel M ((a : ℤ) * k) * dftKernel N ((b : ℤ) * l))
        / ((M : ℂ) * N)
      = (∑ k : Fin M, ∑ l : Fin N, ∑ p, ∑ q,
          A p q * dftKernel M ((k : ℤ) * ((a : ℤ) - (p : ℤ)))
            * dftKernel N ((l : ℤ) * ((b : ℤ) - (q : ℤ)))) / ((M : ℂ) * N) := by
        congr 1
        refine Finset.sum_congr rfl fun k _ => ?_
        refine Finset.sum_congr rfl fun l _ => ?_
        exact key k l
    _ = (∑ p, ∑ q, A p q * (∑ k : Fin M,
            dftKernel M ((k : ℤ) * ((a : ℤ) - (p : ℤ))))
          * (∑ l : Fin N, dftKernel N ((l : ℤ) * ((b : ℤ) - (q : ℤ)))))
        / ((M : ℂ) * N) := by
        congr 1
        rw [sum_swap4 (fun k l p q =>
          A p q * dftKernel M ((k : ℤ) * ((a : ℤ) - (p : ℤ)))
            * dftKernel N ((l : ℤ) * ((b : ℤ) - (q : ℤ))))]
        refine Finset.sum_congr rfl fun p _ => ?_
        refine Finset.sum_congr rfl fun q _ => ?_
        exact sum_factor_out (A p q) _ _
    _ = A a b := by
        simp only [sum_dftKernel, mul_ite, mul_zero, ite_mul, zero_mul,
          Finset.sum_ite_eq, Finset.mem_univ, if_true]
        field_simp
        ring

lemma fftshiftIdx_ifftshiftIdx (n : ℕ) (i : Fin n) :
    fftshiftIdx n (ifftshiftIdx n i) = i := by
  unfold fftshiftIdx ifftshiftIdx
  apply Fin.ext
  have hi := i.isLt
  simp only [Nat.mod_add_mod]
  have h1 : (i : ℕ) + n / 2 + (n - n / 2) = i + n := by omega
  rw [h1, Nat.add_mod_right, Nat.mod_eq_of_lt hi]

lemma ifftshift2_fftshift2 (A : Matrix (Fin M) (Fin N) ℂ) :
    ifftshift2 (fftshift2 A) = A := by
  ext i j
  simp only [ifftshift2, fftshift2, Matrix.of_apply,
    fftshiftIdx_ifftshiftIdx]

/-- C10: for a zero axial distance the Angular-Spectrum propagator is the
identity (over exact complex arithmetic) and never warns: the transfer kernel
degenerates to the constant 1, the forward and inverse FFTs cancel, the
centering shifts cancel, and the critical sample count is `⌊0⌋ = 0`. -/
theorem ptp_zero_distance_identity
    (N : ℕ) (E : Matrix (Fin N) (Fin N) ℂ) (full_width lam : ℝ) :
    propcustom_PTP E full_width lam 0 = Except.ok (false, E) := by
  simp only [propcustom_PTP]
  rw [if_neg (by simp)]
  have hwarn : decide ((N : ℤ) < ⌊lam * |(0 : ℝ)| / (full_width / N) ^ 2⌋)
      = false := by
    rw [decide_eq_false_iff_not,
      show lam * |(0 : ℝ)| / (full_width / N) ^ 2 = 0 by simp,
      Int.floor_zero, not_lt]
    exact Int.natCast_nonneg N
  have hfield : ptp_field E full_width lam 0 = E := by
    simp only [ptp_field]
    have hker : fftshift2 (ptp_kernel N N full_width lam 0)
        = Matrix.of fun _ _ => (1 : ℂ) := by
      ext i j
      simp [fftshift2, ptp_kernel]
    rw [hker]
    have hmul : (Matrix.of fun i j =>
          (Matrix.of fun _ _ => (1 : ℂ)) i j * fftn (fftshift2 E) i j)
        = fftn (fftshift2 E) := by
      ext i j
      simp
    rw [hmul, ifftn_fftn, ifftshift2_fftshift2]
  rw [hwarn, hfield]

/-- C3: the claim says the focal-plane row (η) axis uses the provided pitch
`deta`.  The code builds that axis with `dxi` (line 129), so with `dxi = 1`,
`deta = 2` the Focal→Pupil operator's output differs from the claimed value
already at entry (0,0) of a 2×1 input: the code yields
`scaling · exp(-πi) = -scaling` where the claim yields
`scaling · exp(-2πi) = scaling`. -/
theorem mft_FtoP_eta_pitch_code_bug :
    propcustom_mft_FtoP (!![1; 0] : Matrix (Fin 2) (Fin 1) ℂ) 2 1 1 2 1 2
        "pixel"
      ≠ Except.ok (mftFtoP_spec (!![1; 0] : Matrix (Fin 2) (Fin 1) ℂ)
          2 1 1 2 1 2 "pixel") := by
  intro h
  unfold propcustom_mft_FtoP at h
  rw [if_neg (by decide)] at h
  have h2 : mftFtoP_core (!![1; 0] : Matrix (Fin 2) (Fin 1) ℂ) 2 1 1 2 1 2
        "pixel"
      = mftFtoP_spec (!![1; 0] : Matrix (Fin 2) (Fin 1) ℂ) 2 1 1 2 1 2
        "pixel" := Except.ok.inj h
  have h00 : mftFtoP_core (!![1; 0] : Matrix (Fin 2) (Fin 1) ℂ) 2 1 1 2 1 2
        "pixel" 0 0
      = mftFtoP_spec (!![1; 0] : Matrix (Fin 2) (Fin 1) ℂ) 2 1 1 2 1 2
        "pixel" 0 0 := by rw [h2]
  simp [mftFtoP_core, mftFtoP_spec, Matrix.smul_apply, Matrix.mul_apply,
    Fin.sum_univ_two, Fin.sum_univ_one, Matrix.of_apply, create_axis] at h00
  have he1 : Complex.exp (-(2 * (Real.pi : ℂ) * Complex.I) / 2) = -1 := by
    rw [show -(2 * (Real.pi : ℂ) * Complex.I) / 2 = -(↑Real.pi * Complex.I)
        from by ring,
      Complex.exp_neg, Complex.exp_pi_mul_I]
    norm_num
  have he2 : Complex.exp (-(2 * (Real.pi : ℂ) * Complex.I * 2) / 2) = 1 := by
    rw [show -(2 * (Real.pi : ℂ) * Complex.I * 2) / 2
        = ((-1 : ℤ) : ℂ) * (2 * ↑Real.pi * Complex.I) from by push_cast; ring]
    exact Complex.exp_int_mul_two_pi_mul_I (-1)
  rw [he1, he2] at h00
  norm_num at h00

/-- C7: on a square `N×N` field the Angular-Spectrum propagator returns
`ifftshift(ifftn(fftshift(K) * fftn(fftshift(E))))` where
`K = exp(-iπ·λ·dz·ρ²)` and `ρ` is the radial grid over the frequency axis
`fx = arange(-N//2, N//2) / full_width`. -/
theorem ptp_algorithm
    (N : ℕ) (E : Matrix (Fin N) (Fin N) ℂ) (full_width lam dz : ℝ) :
    ∃ w : Bool,
      propcustom_PTP E full_width lam dz = Except.ok (w,
        ifftshift2 (ifftn (Matrix.of fun i j =>
          fftshift2 (Matrix.of fun a b =>
            Complex.exp (-Complex.I * Real.pi * lam * dz *
              (radial_grid (ptp_fx N full_width) a b : ℝ) ^ 2)) i j *
          fftn (fftshift2 E) i j))) := by
  refine ⟨decide ((N : ℤ) < ⌊lam * |dz| / (full_width / (N : ℝ)) ^ 2⌋), ?_⟩
  simp only [propcustom_PTP]
  rw [if_neg (by simp)]
  rfl

